import Mathlib

/-!
Verification of the knit monorepo orchestration tool against its design
specification.

The Go sources are shallowly embedded: pure parsing and path logic becomes
Lean functions over `String`/`List Char`; functions that shell out (git,
go list) take the external result as a parameter; the bounded-concurrency
runner, whose package is absent from the sources (only its callers are
present), is modelled from the specification where noted.

Conventions: Go strings are Lean `String`s (character granularity instead
of byte granularity, which agrees on every operation used here); Go error
returns become `Except String`/`Option String`; Go slices that can be nil
become `Option (List _)` where the distinction matters; Go map-backed sets
become insertion-ordered duplicate-free lists (claims about them only
concern membership and duplicate-freeness, never order).
-/

namespace Knit

/-! ## Path and string primitives -/

/-- The character class trimmed by Go's strings.TrimSpace
(unicode.IsSpace in the Latin-1 range). -/
def goIsSpace (c : Char) : Bool :=
  c = ' ' || c = '\t' || c = '\n' || c = '\u000B' || c = '\u000C' ||
    c = '\r' || c = '\u0085' || c = '\u00A0'

/-- strings.TrimSpace: drop leading and trailing whitespace. -/
def trimSpace (s : String) : String :=
  String.mk (((s.data.dropWhile goIsSpace).reverse.dropWhile goIsSpace).reverse)

/-- strings.Split with separator "\n" (a one-character separator):
splits into the runs between newlines; the empty input yields one empty
field, never the empty list. -/
def splitOnNewlines : List Char → List (List Char)
  | [] => [[]]
  | c :: rest =>
    if c = '\n' then [] :: splitOnNewlines rest
    else
      match splitOnNewlines rest with
      | [] => [[c]]
      | l :: ls => (c :: l) :: ls

/-- filepath.Join of two components (used in lib/git/main.go line 97):
joins with the path separator. Go additionally runs filepath.Clean on the
result; normalisation of "." / ".." / repeated separators is not modelled,
the paths handled here are assumed clean. -/
def joinPath (root file : String) : String :=
  if root = "" then file
  else if file = "" then root
  else root ++ "/" ++ file

/-! ## lib/git/main.go -/

/-- GetChangedFiles (lib/git/main.go lines 30-42), modelled on the captured
standard output of the git diff command (the exec part is abstracted into
the `output` parameter): trim surrounding whitespace; an empty result means
no changed files; otherwise split the output on newlines. -/
def GetChangedFiles (output : String) : List String :=
  let trimmed := trimSpace output
  if trimmed = "" then []
  else (splitOnNewlines trimmed.data).map String.mk

/-- The inner loop (j = i+1 .. n-1) of sortByLengthDesc in
lib/git/main.go: `x` is the current occupant of slot i; a strictly longer
string swaps into the slot and the displaced occupant stays at position j.
Returns the final slot-i value together with the remaining slots. -/
def innerPass (x : String) : List String → String × List String
  | [] => (x, [])
  | y :: ys =>
    if y.length > x.length then
      let p := innerPass y ys
      (p.1, x :: p.2)
    else
      let p := innerPass x ys
      (p.1, y :: p.2)

/-- The outer loop of sortByLengthDesc: each iteration fixes one slot, so
the fuel is the length of the list. -/
def sortAux : Nat → List String → List String
  | 0, _ => []
  | _ + 1, [] => []
  | n + 1, x :: xs =>
    let p := innerPass x xs
    p.1 :: sortAux n p.2

/-- sortByLengthDesc (lib/git/main.go lines 116-124): sorts strings by
length, longest first (the in-place exchange sort of the source rendered
functionally). -/
def sortByLengthDesc (strs : List String) : List String :=
  sortAux strs.length strs

/-- The per-directory ownership test of FindAffectedModuleDirs
(lib/git/main.go line 101): the file belongs to the directory when the
directory followed by the path separator is a prefix of the file, or the
file equals the directory. -/
def isOwnedBy (absFile modDir : String) : Bool :=
  (modDir ++ "/").data.isPrefixOf absFile.data || absFile == modDir

/-- The inner loop of FindAffectedModuleDirs (lib/git/main.go lines
100-105): the first directory, in sorted order, owning the file (`break`
after the first hit). -/
def firstOwner (sortedDirs : List String) (absFile : String) : Option String :=
  sortedDirs.find? (fun modDir => isOwnedBy absFile modDir)

/-- The loop body of FindAffectedModuleDirs (lib/git/main.go lines
95-106): join the changed file onto the workspace root and add the first
directory owning it, if any, to the accumulated set (a map-backed set in
Go, an insertion-ordered duplicate-free list here). -/
def addOwner (sortedDirs : List String) (workspaceRoot : String)
    (acc : List String) (file : String) : List String :=
  match firstOwner sortedDirs (joinPath workspaceRoot file) with
  | some d => if d ∈ acc then acc else acc ++ [d]
  | none => acc

/-- FindAffectedModuleDirs (lib/git/main.go lines 86-113): sort the module
directories longest first, assign every changed file to the first (hence
longest) directory owning it, and collect the owning directories into a
set. The Go set is a map whose iteration order is unspecified; it is
modelled as an insertion-ordered duplicate-free list. -/
def FindAffectedModuleDirs (changedFiles moduleDirs : List String)
    (workspaceRoot : String) : List String :=
  changedFiles.foldl (addOwner (sortByLengthDesc moduleDirs) workspaceRoot) []

/-! ## lib/analyser/primitive.go -/

/-- Module, from lib/analyser/model (`go list -m -json` shape). -/
structure Module where
  Path : String
  Main : Bool
  Dir : String
  GoMod : String
  GoVersion : String
deriving DecidableEq

/-- The directed module graph built by BuildDependencyGraph
(lib/analyser/primitive.go): vertices are module paths, an edge goes from
a module to a module it imports. The graph value of the dominikbraun/graph
library is modelled by its vertex list and edge list. -/
structure DiGraph where
  vertices : List String
  edges : List (String × String)
deriving DecidableEq

/-- Adjacency of a vertex: the targets of the edges leaving it. A vertex
absent from the graph has no adjacency (a Go map lookup of a missing key
yields the empty value). -/
def adj (g : DiGraph) (v : String) : List String :=
  if v ∈ g.vertices then (g.edges.filter (fun e => e.1 == v)).map (fun e => e.2)
  else []

/-- The DFS loop of graph.DFS (dominikbraun/graph, called by
GetDependencyPaths): stack-based traversal; pop, skip if already visited,
otherwise record the vertex and push its adjacency. Returns the visited
vertices in visit order. The Go stack pushes neighbours in map order,
which is unspecified; a fixed order is used here, and every property
proved about the result is order-independent. -/
def dfsLoop (g : DiGraph) (stack visited : List String) : List String :=
  match stack with
  | [] => visited
  | v :: rest =>
    if v ∈ visited then dfsLoop g rest visited
    else dfsLoop g (adj g v ++ rest) (visited ++ [v])
termination_by (((g.vertices.filter (fun x => decide (x ∉ visited))).length, stack.length) : Nat × Nat)
decreasing_by
  · exact Prod.Lex.right _ (Nat.lt_succ_self _)
  · rename_i hnv
    by_cases hv : y ∈ g.vertices
    · apply Prod.Lex.left
      have hsub : g.vertices.filter (fun x => decide (x ∉ visited ++ [y]))
          = (g.vertices.filter (fun x => decide (x ∉ visited))).filter
              (fun x => decide (x ≠ y)) := by
        rw [List.filter_filter]
        apply List.filter_congr
        intro x _
        by_cases hxv : x = y <;> by_cases hxm : x ∈ visited <;>
          simp [hxv, hxm, List.mem_append]
      rw [hsub, List.length_filter_lt_length_iff_exists]
      exact ⟨y, List.mem_filter.mpr ⟨hv, by simpa using hnv⟩, by simp⟩
    · have hfil : g.vertices.filter (fun x => decide (x ∉ visited ++ [y]))
          = g.vertices.filter (fun x => decide (x ∉ visited)) := by
        apply List.filter_congr
        intro x hx
        have hxv : x ≠ y := fun h => hv (h ▸ hx)
        by_cases hxm : x ∈ visited <;> simp [hxv, hxm, List.mem_append]
      have hadj : adj g y = [] := by simp [adj, hv]
      rw [hfil, hadj]
      exact Prod.Lex.right _ (by simp)

/-- GetDependencyPaths (lib/analyser/primitive.go lines 283-301): DFS from
the vertex, the visitor collecting every visited vertex except the start;
an error when the start vertex is not in the graph. -/
def GetDependencyPaths (g : DiGraph) (vertex : String) :
    Except String (List String) :=
  if vertex ∈ g.vertices then
    Except.ok ((dfsLoop g [vertex] []).filter (fun w => !(w == vertex)))
  else Except.error ("failed to perform DFS for vertex " ++ vertex)

/-- Reachability along the directed edges of the module graph: the
reflexive-transitive closure of the adjacency relation. -/
inductive Reachable (g : DiGraph) : String → String → Prop
  | refl (v : String) : Reachable g v v
  | step {u v w : String} : Reachable g u v → w ∈ adj g v → Reachable g u w

/-! ## The runner package boundary (lib/runner is absent from the sources;
the shapes below come from its callers in main.go, the behaviour from the
specification where noted). -/

/-- Task of the runner package, as built by createTasks in main.go:
an identifier, a shell command line, a working directory. -/
structure Task where
  Id : String
  Cmd : String
  Root : String
deriving DecidableEq

/-- TaskFuture of the runner package as consumed by handleTaskFuture in
main.go: the identifier copied from the task. The stdout/stderr channels
and the completion channel are live streams and are not part of the
shallow embedding; the terminal result a future delivers is passed to its
consumer explicitly. -/
structure TaskFuture where
  Id : String
deriving DecidableEq

/-- Terminal Result of a task (result.Status in main.go). -/
structure TaskResult where
  Status : Int
deriving DecidableEq

/-- The engine value returned by construction. -/
structure Runner where
  concurrency : Int
deriving DecidableEq

/-- Modelled from the spec: the runner package is absent from the sources,
only its caller `runner.NewRunner(ctx, 3)` is visible. Per §4.1/§6 of the
specification, construction takes a cancellable context and a concurrency
ceiling and fails fast with a construction error exactly when the ceiling
is below 1. The context carries no shallowly-embeddable state and is a
unit parameter. -/
def NewRunner (ctx : Unit) (concurrency : Int) : Except String Runner :=
  if concurrency < 1 then Except.error "concurrency must be at least 1"
  else Except.ok { concurrency := concurrency }

/-- Modelled from the spec: RunTasks of the runner package (absent from the
sources) returns, without blocking on any task's completion, one live
result handle per submitted task, in submission order, each handle's
identifier copied from its task descriptor (§4.1/§6). Being a pure total
function of the descriptors alone, this model returns without awaiting any
result. -/
def RunTasks (r : Runner) (tasks : List Task) : List TaskFuture :=
  tasks.map (fun t => { Id := t.Id })

/-! ## Scheduler state (modelled from the spec, §3/§4.1: the runner package
is absent from the sources). -/

/-- Modelled from the spec: the scheduler state of one engine batch — the
submitted tasks still waiting for an admission slot, the tasks whose
process is currently running, and the finished tasks with their exit
status. -/
structure EngineState where
  queued : List Task
  running : List Task
  finished : List (Task × Int)
deriving DecidableEq

/-- The state of a batch right after submission: every task queued, none
running, none finished. -/
def initState (tasks : List Task) : EngineState :=
  { queued := tasks, running := [], finished := [] }

/-- Modelled from the spec (§4.1): one scheduling event under ceiling N.
A queued task is admitted (its process started) only while fewer than N
tasks are running; a running task finishes with some exit status (natural
exit, spawn failure and cancellation kill all deliver a terminal status,
so cancellation steps are `finish` steps here). Admission order need not
be FIFO, so any queued task may be admitted. -/
inductive EngineStep (N : Nat) : EngineState → EngineState → Prop
  | start (s : EngineState) (t : Task) (pre post : List Task) :
      s.queued = pre ++ t :: post →
      s.running.length < N →
      EngineStep N s
        { queued := pre ++ post, running := s.running ++ [t],
          finished := s.finished }
  | finish (s : EngineState) (t : Task) (pre post : List Task) (status : Int) :
      s.running = pre ++ t :: post →
      EngineStep N s
        { queued := s.queued, running := pre ++ post,
          finished := s.finished ++ [(t, status)] }

/-! ## main.go -/

/-- createTasks (main.go lines 554-564): one task per module, the module
path as identifier, the module directory as working directory. -/
def createTasks (modules : List Module) (cmd : String) : List Task :=
  modules.map (fun module =>
    { Id := module.Path, Cmd := cmd, Root := module.Dir })

/-- The terminal branch of handleTaskFuture (main.go lines 574-583): the
status line and the success flag computed from a task's Result — success
exactly when the exit status is 0, the failure line carrying the status. -/
def taskDoneLog (result : TaskResult) : String × Bool :=
  if result.Status = 0 then ("✓ Done", true)
  else ("✗ Failed (exit " ++ toString result.Status ++ ")", false)

/-- runOnModules (main.go lines 538-552): build the tasks, submit them via
RunTasks, then wait for every future; handleTaskFuture logs each future's
output and terminal result. The function returns no value; it is modelled
by the per-task status log lines it emits (task identifier, message,
success flag), with `results` the terminal statuses the environment
delivers, one per task in order. -/
def runOnModulesLogs (modules : List Module) (cmd : String)
    (results : List TaskResult) : List (String × String × Bool) :=
  ((createTasks modules cmd).zip results).map
    (fun tr => (tr.1.Id, taskDoneLog tr.2))

/-- The moduleDirToPath map of main.go (lines 489-494): module directory to
module path; for a duplicated directory the later entry wins (Go map
overwrite), hence the search in the reversed list. -/
def moduleDirToPath (modules : List Module) (dir : String) : Option String :=
  (modules.reverse.find? (fun m => m.Dir == dir)).map Module.Path

/-- The Action of createCommand (main.go lines 465-534), shared by the
test and fmt commands. External effects are parameters: `listModulesRes`
is the outcome of analyzer.ListModule, `changedFilesRes` of
git.GetChangedFiles, `results` the terminal statuses of the executed
tasks. Returns the error handed back to the cli framework together with
the task status log lines: setup failures propagate as errors; with the
affected flag and no affected module the action prints a notice and
returns no error; otherwise it runs the batch and returns no error —
per-task results are only logged, they never influence the returned
error. -/
def commandAction (listModulesRes : Except String (List Module))
    (changedFilesRes : Except String (List String)) (affectedFlag : Bool)
    (target : String) (absPath : String) (cmd : String)
    (results : List TaskResult) :
    Option String × List (String × String × Bool) :=
  match listModulesRes with
  | .error e => (some e, [])
  | .ok modules =>
    match (if affectedFlag then
            match changedFilesRes with
            | .error e => Except.error ("failed to get changed files: " ++ e)
            | .ok changedFiles =>
              let moduleDirs := modules.map Module.Dir
              let affectedDirs :=
                FindAffectedModuleDirs changedFiles moduleDirs absPath
              let affectedPaths := affectedDirs.filterMap (moduleDirToPath modules)
              Except.ok (modules.filter (fun m => m.Path ∈ affectedPaths))
          else Except.ok modules : Except String (List Module)) with
    | .error e => (some e, [])
    | .ok modulesToRun =>
      if affectedFlag ∧ modulesToRun = [] then (none, [])
      else
        let finalModules :=
          if target ≠ "" then modulesToRun.filter (fun m => m.Path == target)
          else modulesToRun
        (none, runOnModulesLogs finalModules cmd results)

/-- main (main.go lines 25-37): app.Run's error goes through log.Fatal,
which exits with code 1; otherwise the process ends with exit code 0. -/
def processExitCode (appRunError : Option String) : Nat :=
  match appRunError with
  | some _ => 1
  | none => 0

/-- runAffected (main.go lines 131-206) up to output formatting: list the
modules (empty workspace is fatal), get the changed files, resolve the
affected directories to module paths, and optionally close under
transitive dependencies using the dependency graph (a per-module DFS error
is skipped; the Go set of paths is modelled insertion-ordered). -/
def runAffectedPaths (listModulesRes : Except String (List Module))
    (changedFilesRes : Except String (List String)) (absPath : String)
    (includeDeps : Bool) (graphRes : Except String DiGraph) :
    Except String (List String) :=
  match listModulesRes with
  | .error e => Except.error ("failed to list modules: " ++ e)
  | .ok modules =>
    if modules.length = 0 then Except.error "no modules found in workspace"
    else
      match changedFilesRes with
      | .error e => Except.error ("failed to get changed files: " ++ e)
      | .ok changedFiles =>
        let moduleDirs := modules.map Module.Dir
        let affectedDirs := FindAffectedModuleDirs changedFiles moduleDirs absPath
        let affectedPaths := affectedDirs.filterMap (moduleDirToPath modules)
        if includeDeps ∧ affectedPaths.length ≠ 0 then
          match graphRes with
          | .error e => Except.error ("failed to build dependency graph: " ++ e)
          | .ok g =>
            let seeded := affectedPaths.foldl
              (fun acc p => if p ∈ acc then acc else acc ++ [p]) []
            Except.ok (affectedPaths.foldl (fun acc p =>
              match GetDependencyPaths g p with
              | .error _ => acc
              | .ok deps => deps.foldl
                  (fun acc2 dep => if dep ∈ acc2 then acc2 else acc2 ++ [dep])
                  acc) seeded)
        else Except.ok affectedPaths

/-- runGraph (main.go lines 283-323) up to the format switch: a listing
failure and the empty workspace are fatal, a graph-construction failure
propagates; rendering of the tree/dot/json formats is not modelled. -/
def runGraphSetup (listModulesRes : Except String (List Module))
    (graphRes : Except String DiGraph) : Except String DiGraph :=
  match listModulesRes with
  | .error e => Except.error ("failed to list modules: " ++ e)
  | .ok modules =>
    if modules.length = 0 then Except.error "no modules found in workspace"
    else
      match graphRes with
      | .error e => Except.error ("failed to build dependency graph: " ++ e)
      | .ok g => Except.ok g

/-- json.Marshal of a Go []string: a nil slice marshals to null, any other
slice to a JSON array of the quoted elements. Character escaping inside
the strings is not modelled — module paths contain no characters needing
escapes. -/
def marshalStringSlice : Option (List String) → String
  | none => "null"
  | some l =>
    "[" ++ String.intercalate "," (l.map (fun m => "\"" ++ m ++ "\"")) ++ "]"

/-- The FormatGitHubMatrix branch of outputAffected (main.go lines
223-236): marshal a struct with the single field `module` holding the
affected paths, replacing a length-zero slice by the empty non-nil slice
so the array renders as [] and never as null. The Go []string argument is
`Option (List String)` with `none` for the nil slice. -/
def outputAffectedGithubMatrix (modules : Option (List String)) : String :=
  let moduleField := if (modules.getD []).length = 0 then some [] else modules
  "\x7b\"module\":" ++ marshalStringSlice moduleField ++ "\x7d"


/-! ## Lemmas about the length sort -/

theorem innerPass_snd_length (x : String) (l : List String) :
    ((innerPass x l).2).length = l.length := by
  induction l generalizing x with
  | nil => rfl
  | cons y ys ih => simp only [innerPass]; split <;> simp [ih]

theorem innerPass_perm (x : String) (l : List String) :
    ((innerPass x l).1 :: (innerPass x l).2).Perm (x :: l) := by
  induction l generalizing x with
  | nil => simp [innerPass]
  | cons y ys ih =>
    simp only [innerPass]
    split
    · exact (List.Perm.swap _ _ _).trans ((ih y).cons x)
    · exact (List.Perm.swap _ _ _).trans (((ih x).cons y).trans (List.Perm.swap _ _ _))

theorem innerPass_fst_max (x : String) (l : List String) :
    ∀ z ∈ x :: l, z.length ≤ ((innerPass x l).1).length := by
  induction l generalizing x with
  | nil => intro z hz; simp at hz; simp [innerPass, hz]
  | cons y ys ih =>
    intro z hz
    simp only [innerPass]
    split
    · rename_i hgt
      rcases List.mem_cons.mp hz with rfl | hz2
      · exact le_trans (le_of_lt hgt) (ih y y (List.mem_cons_self _ _))
      · rcases List.mem_cons.mp hz2 with rfl | hzys
        · exact ih z z (List.mem_cons_self _ _)
        · exact ih y z (List.mem_cons_of_mem _ hzys)
    · rename_i hle
      rcases List.mem_cons.mp hz with rfl | hz2
      · exact ih z z (List.mem_cons_self _ _)
      · rcases List.mem_cons.mp hz2 with rfl | hzys
        · exact le_trans (Nat.le_of_not_lt hle) (ih x x (List.mem_cons_self _ _))
        · exact ih x z (List.mem_cons_of_mem _ hzys)

theorem sortAux_perm (n : Nat) : ∀ l : List String, l.length ≤ n →
    (sortAux n l).Perm l := by
  induction n with
  | zero =>
    intro l h
    rw [List.eq_nil_of_length_eq_zero (Nat.le_zero.mp h)]
    simp [sortAux]
  | succ n ih =>
    intro l h
    cases l with
    | nil => simp [sortAux]
    | cons x xs =>
      have h2 : ((innerPass x xs).2).length ≤ n := by
        rw [innerPass_snd_length]
        simp only [List.length_cons] at h
        omega
      exact (((ih _ h2).cons _).trans (innerPass_perm x xs))

theorem sortAux_pairwise (n : Nat) : ∀ l : List String, l.length ≤ n →
    List.Pairwise (fun a b => b.length ≤ a.length) (sortAux n l) := by
  induction n with
  | zero => intro l h; simp [sortAux]
  | succ n ih =>
    intro l h
    cases l with
    | nil => simp [sortAux]
    | cons x xs =>
      have h2 : ((innerPass x xs).2).length ≤ n := by
        rw [innerPass_snd_length]
        simp only [List.length_cons] at h
        omega
      refine List.pairwise_cons.mpr ⟨?_, ih _ h2⟩
      intro b hb
      have hb2 : b ∈ (innerPass x xs).2 := (sortAux_perm n _ h2).mem_iff.mp hb
      have hb3 : b ∈ x :: xs :=
        (innerPass_perm x xs).mem_iff.mp (List.mem_cons_of_mem _ hb2)
      exact innerPass_fst_max x xs b hb3

theorem sortByLengthDesc_perm (l : List String) : (sortByLengthDesc l).Perm l :=
  sortAux_perm l.length l (le_refl _)

theorem sortByLengthDesc_pairwise (l : List String) :
    List.Pairwise (fun a b => b.length ≤ a.length) (sortByLengthDesc l) :=
  sortAux_pairwise l.length l (le_refl _)

/-- In a list sorted by length descending, the first hit of a predicate is
at least as long as any hit. -/
theorem find?_sorted_maximal {p : String → Bool} :
    ∀ {l : List String} {a b : String},
      List.Pairwise (fun x y => y.length ≤ x.length) l →
      l.find? p = some a → b ∈ l → p b = true → b.length ≤ a.length := by
  intro l
  induction l with
  | nil => intro a b _ hf _ _; simp [List.find?] at hf
  | cons x xs ih =>
    intro a b hp hf hb hpb
    by_cases hpx : p x = true
    · rw [List.find?_cons_of_pos _ hpx] at hf
      obtain rfl : x = a := by injection hf
      rcases List.mem_cons.mp hb with rfl | hbxs
      · exact le_refl _
      · exact (List.pairwise_cons.mp hp).1 b hbxs
    · rw [List.find?_cons_of_neg _ hpx] at hf
      rcases List.mem_cons.mp hb with rfl | hbxs
      · exact absurd hpb hpx
      · exact ih (List.pairwise_cons.mp hp).2 hf hbxs hpb

/-! ## Lemmas about the affected-directory fold -/

theorem mem_addOwner (sd : List String) (root : String) (acc : List String)
    (file x : String) :
    x ∈ addOwner sd root acc file ↔
      x ∈ acc ∨ firstOwner sd (joinPath root file) = some x := by
  unfold addOwner
  cases hfo : firstOwner sd (joinPath root file) with
  | none => simp
  | some d =>
    by_cases hd : d ∈ acc
    · simp only [if_pos hd]
      constructor
      · exact Or.inl
      · rintro (h | h)
        · exact h
        · obtain rfl : d = x := by injection h
          exact hd
    · simp only [if_neg hd, List.mem_append, List.mem_singleton]
      constructor
      · rintro (h | rfl)
        · exact Or.inl h
        · exact Or.inr rfl
      · rintro (h | h)
        · exact Or.inl h
        · obtain rfl : d = x := by injection h
          exact Or.inr rfl

theorem mem_foldl_addOwner (sd : List String) (root : String)
    (files : List String) : ∀ (acc : List String) (x : String),
    x ∈ files.foldl (addOwner sd root) acc ↔
      x ∈ acc ∨ ∃ f ∈ files, firstOwner sd (joinPath root f) = some x := by
  induction files with
  | nil => intro acc x; simp
  | cons f fs ih =>
    intro acc x
    rw [List.foldl_cons, ih, mem_addOwner]
    constructor
    · rintro ((hx | hfo) | ⟨g, hg, hgo⟩)
      · exact Or.inl hx
      · exact Or.inr ⟨f, List.mem_cons_self _ _, hfo⟩
      · exact Or.inr ⟨g, List.mem_cons_of_mem _ hg, hgo⟩
    · rintro (hx | ⟨g, hg, hgo⟩)
      · exact Or.inl (Or.inl hx)
      · rcases List.mem_cons.mp hg with rfl | hgfs
        · exact Or.inl (Or.inr hgo)
        · exact Or.inr ⟨g, hgfs, hgo⟩

theorem nodup_addOwner (sd : List String) (root : String) (acc : List String)
    (file : String) (h : acc.Nodup) : (addOwner sd root acc file).Nodup := by
  unfold addOwner
  cases hfo : firstOwner sd (joinPath root file) with
  | none => exact h
  | some d =>
    show (if d ∈ acc then acc else acc ++ [d]).Nodup
    by_cases hd : d ∈ acc
    · simpa [if_pos hd]
    · rw [if_neg hd]
      exact List.nodup_append.mpr ⟨h, List.nodup_singleton d,
        fun a ha had => hd (by simpa using (List.mem_singleton.mp had) ▸ ha)⟩

theorem nodup_foldl_addOwner (sd : List String) (root : String)
    (files : List String) : ∀ acc : List String, acc.Nodup →
    (files.foldl (addOwner sd root) acc).Nodup := by
  induction files with
  | nil => intro acc h; simpa
  | cons f fs ih =>
    intro acc h
    rw [List.foldl_cons]
    exact ih _ (nodup_addOwner sd root acc f h)

/-! ## Lemmas about the DFS -/

theorem mem_dfsLoop_of_mem_visited (g : DiGraph) (stack visited : List String) :
    ∀ x ∈ visited, x ∈ dfsLoop g stack visited := by
  induction stack, visited using dfsLoop.induct g with
  | case1 visited => intro x hx; simpa [dfsLoop] using hx
  | case2 visited y ys hy ih =>
    intro x hx
    rw [dfsLoop, if_pos hy]
    exact ih x hx
  | case3 visited y ys hy ih =>
    intro x hx
    rw [dfsLoop, if_neg hy]
    exact ih x (List.mem_append.mpr (Or.inl hx))

theorem mem_dfsLoop_of_mem_stack (g : DiGraph) (stack visited : List String) :
    ∀ x ∈ stack, x ∈ dfsLoop g stack visited := by
  induction stack, visited using dfsLoop.induct g with
  | case1 visited => intro x hx; simp at hx
  | case2 visited y ys hy ih =>
    intro x hx
    rw [dfsLoop, if_pos hy]
    rcases List.mem_cons.mp hx with rfl | hxs
    · exact mem_dfsLoop_of_mem_visited g ys visited x hy
    · exact ih x hxs
  | case3 visited y ys hy ih =>
    intro x hx
    rw [dfsLoop, if_neg hy]
    rcases List.mem_cons.mp hx with rfl | hxs
    · exact mem_dfsLoop_of_mem_visited g _ _ x (List.mem_append.mpr (Or.inr (List.mem_singleton.mpr rfl)))
    · exact ih x (List.mem_append.mpr (Or.inr hxs))

theorem dfsLoop_closed (g : DiGraph) (stack visited : List String) :
    ∀ x ∈ dfsLoop g stack visited,
      x ∈ visited ∨ ∀ w ∈ adj g x, w ∈ dfsLoop g stack visited := by
  induction stack, visited using dfsLoop.induct g with
  | case1 visited =>
    intro x hx
    exact Or.inl (by simpa [dfsLoop] using hx)
  | case2 visited y ys hy ih =>
    intro x hx
    rw [dfsLoop, if_pos hy] at hx ⊢
    exact ih x hx
  | case3 visited y ys hy ih =>
    intro x hx
    rw [dfsLoop, if_neg hy] at hx ⊢
    rcases ih x hx with hxv | hclosed
    · rcases List.mem_append.mp hxv with hxv | hxy
      · exact Or.inl hxv
      · obtain rfl : x = y := List.mem_singleton.mp hxy
        right
        intro w hw
        exact mem_dfsLoop_of_mem_stack g _ _ w (List.mem_append.mpr (Or.inl hw))
    · exact Or.inr hclosed

theorem mem_dfsLoop_of_reachable (g : DiGraph) (v w : String)
    (h : Reachable g v w) : w ∈ dfsLoop g [v] [] := by
  induction h with
  | refl => exact mem_dfsLoop_of_mem_stack g [v] [] _ (List.mem_singleton.mpr rfl)
  | step hr hadj ih =>
    rcases dfsLoop_closed g [v] [] _ ih with hin | hclosed
    · simp at hin
    · exact hclosed _ hadj

theorem dfsLoop_sound (g : DiGraph) (s : String) (stack visited : List String) :
    (∀ x ∈ stack, Reachable g s x) → (∀ x ∈ visited, Reachable g s x) →
    ∀ w ∈ dfsLoop g stack visited, Reachable g s w := by
  induction stack, visited using dfsLoop.induct g with
  | case1 visited =>
    intro _ hv w hw
    exact hv w (by simpa [dfsLoop] using hw)
  | case2 visited y ys hy ih =>
    intro hs hv w hw
    rw [dfsLoop, if_pos hy] at hw
    exact ih (fun x hx => hs x (List.mem_cons_of_mem _ hx)) hv w hw
  | case3 visited y ys hy ih =>
    intro hs hv w hw
    rw [dfsLoop, if_neg hy] at hw
    refine ih ?_ ?_ w hw
    · intro x hx
      rcases List.mem_append.mp hx with hxa | hxs
      · exact Reachable.step (hs y (List.mem_cons_self _ _)) hxa
      · exact hs x (List.mem_cons_of_mem _ hxs)
    · intro x hx
      rcases List.mem_append.mp hx with hxv | hxy
      · exact hv x hxv
      · obtain rfl : x = y := List.mem_singleton.mp hxy
        exact hs x (List.mem_cons_self _ _)

/-! ## Lemmas about prefixes, splitting, and the engine invariant -/

theorem isPrefixOf_iff_exists_append :
    ∀ p s : List Char, p.isPrefixOf s = true ↔ ∃ t, s = p ++ t := by
  intro p
  induction p with
  | nil => intro s; simp [List.isPrefixOf]
  | cons c cs ih =>
    intro s
    cases s with
    | nil => simp [List.isPrefixOf]
    | cons a as =>
      simp only [List.isPrefixOf, Bool.and_eq_true, beq_iff_eq, ih,
        List.cons_append, List.cons.injEq]
      constructor
      · rintro ⟨rfl, t, rfl⟩
        exact ⟨t, rfl, rfl⟩
      · rintro ⟨t, rfl, rfl⟩
        exact ⟨rfl, t, rfl⟩

theorem isOwnedBy_iff (f d : String) :
    isOwnedBy f d = true ↔ (f = d ∨ ∃ rest : String, f = d ++ "/" ++ rest) := by
  unfold isOwnedBy
  rw [Bool.or_eq_true, beq_iff_eq, isPrefixOf_iff_exists_append]
  constructor
  · rintro (⟨t, ht⟩ | rfl)
    · right
      refine ⟨String.mk t, String.ext ?_⟩
      rw [ht, String.data_append, String.data_append]
      rfl
    · left; rfl
  · rintro (rfl | ⟨rest, rfl⟩)
    · right; rfl
    · left
      refine ⟨rest.data, ?_⟩
      rw [String.data_append, String.data_append]

theorem splitOnNewlines_ne_nil (l : List Char) : splitOnNewlines l ≠ [] := by
  induction l with
  | nil => simp [splitOnNewlines]
  | cons c cs ih =>
    simp only [splitOnNewlines]
    split
    · simp
    · cases h : splitOnNewlines cs with
      | nil => simp
      | cons a as => simp

theorem splitOnNewlines_eq_singleton_nil (l : List Char) :
    splitOnNewlines l = [[]] ↔ l = [] := by
  constructor
  · intro h
    cases l with
    | nil => rfl
    | cons c cs =>
      simp only [splitOnNewlines] at h
      by_cases hc : c = '\n'
      · rw [if_pos hc] at h
        injection h with h1 h2
        exact absurd h2 (splitOnNewlines_ne_nil cs)
      · rw [if_neg hc] at h
        cases hs : splitOnNewlines cs with
        | nil => exact absurd hs (splitOnNewlines_ne_nil cs)
        | cons a as =>
          rw [hs] at h
          injection h with h1 h2
          simp at h1
  · rintro rfl; rfl

/-- The two batch invariants preserved by every scheduling event: the
running count stays below the ceiling, and the three pools partition the
submitted batch size. -/
theorem engineStep_preserves (N M : Nat) (s s2 : EngineState)
    (h : EngineStep N s s2)
    (hinv : s.running.length ≤ N ∧
      s.queued.length + s.running.length + s.finished.length = M) :
    s2.running.length ≤ N ∧
      s2.queued.length + s2.running.length + s2.finished.length = M := by
  obtain ⟨hN, hM⟩ := hinv
  cases h with
  | start t pre post hq hlt =>
    constructor
    · simpa using hlt
    · rw [hq] at hM
      simp only [List.length_append, List.length_cons, List.length_nil] at hM ⊢
      omega
  | finish t pre post status hr =>
    constructor
    · rw [hr] at hN
      simp only [List.length_append, List.length_cons, List.length_nil] at hN ⊢
      omega
    · rw [hr] at hM
      simp only [List.length_append, List.length_cons, List.length_nil] at hM ⊢
      omega

theorem engineReachable_inv (N M : Nat) (s s2 : EngineState)
    (h : Relation.ReflTransGen (EngineStep N) s s2)
    (hinv : s.running.length ≤ N ∧
      s.queued.length + s.running.length + s.finished.length = M) :
    s2.running.length ≤ N ∧
      s2.queued.length + s2.running.length + s2.finished.length = M := by
  induction h with
  | refl => exact hinv
  | tail hsteps hstep ih => exact engineStep_preserves N M _ _ hstep ih

/-! ## The claims -/

/-- C1: the claim says the process exit code is non-zero whenever a task's
Result carries a non-zero exit status. The code contradicts it: on a test
batch with one module whose task exits with status 1, handleTaskFuture
logs the failure line, but the command action returns no error, so main
exits with code 0. -/
theorem exitCode_zero_despite_failing_task :
    processExitCode (commandAction
        (Except.ok [{ Path := "example.com/app", Main := true, Dir := "/ws/app",
                      GoMod := "", GoVersion := "" }])
        (Except.ok []) false "" "/ws" "go test ./..." [{ Status := 1 }]).1 = 0 ∧
    (commandAction
        (Except.ok [{ Path := "example.com/app", Main := true, Dir := "/ws/app",
                      GoMod := "", GoVersion := "" }])
        (Except.ok []) false "" "/ws" "go test ./..." [{ Status := 1 }]).2
      = [("example.com/app", "✗ Failed (exit 1)", false)] := by
  constructor <;> rfl

/-- C2: affected-module resolution assigns every changed file that has an
owner to the most specific owning directory: the assigned directory is one
of the module directories, it owns the file, it ends up in the affected
set, and every other module directory owning the file is at most as
long. -/
theorem findAffectedModuleDirs_longest_owner
    (changedFiles moduleDirs : List String) (workspaceRoot file d : String)
    (hfile : file ∈ changedFiles)
    (hd : firstOwner (sortByLengthDesc moduleDirs) (joinPath workspaceRoot file)
      = some d) :
    d ∈ moduleDirs ∧
    isOwnedBy (joinPath workspaceRoot file) d = true ∧
    d ∈ FindAffectedModuleDirs changedFiles moduleDirs workspaceRoot ∧
    ∀ d2 ∈ moduleDirs, isOwnedBy (joinPath workspaceRoot file) d2 = true →
      d2.length ≤ d.length := by
  refine ⟨?_, List.find?_some hd, ?_, ?_⟩
  · exact (sortByLengthDesc_perm moduleDirs).mem_iff.mp
      (List.mem_of_find?_eq_some hd)
  · unfold FindAffectedModuleDirs
    rw [mem_foldl_addOwner]
    exact Or.inr ⟨file, hfile, hd⟩
  · intro d2 hd2 hown
    exact find?_sorted_maximal (sortByLengthDesc_pairwise moduleDirs) hd
      ((sortByLengthDesc_perm moduleDirs).mem_iff.mpr hd2) hown

/-- Witness for C2 at the specification's concrete scenario: changed files
mod/a/x.go and mod/a/sub/y.go with module directories mod/a and mod/a/sub
map to mod/a and mod/a/sub respectively. -/
theorem findAffectedModuleDirs_longest_owner_witness :
    ("mod/a" ∈ ["mod/a", "mod/a/sub"] ∧
      isOwnedBy (joinPath "" "mod/a/x.go") "mod/a" = true ∧
      "mod/a" ∈ FindAffectedModuleDirs ["mod/a/x.go", "mod/a/sub/y.go"]
        ["mod/a", "mod/a/sub"] "" ∧
      ∀ d2 ∈ ["mod/a", "mod/a/sub"],
        isOwnedBy (joinPath "" "mod/a/x.go") d2 = true →
          d2.length ≤ "mod/a".length) ∧
    ("mod/a/sub" ∈ ["mod/a", "mod/a/sub"] ∧
      isOwnedBy (joinPath "" "mod/a/sub/y.go") "mod/a/sub" = true ∧
      "mod/a/sub" ∈ FindAffectedModuleDirs ["mod/a/x.go", "mod/a/sub/y.go"]
        ["mod/a", "mod/a/sub"] "" ∧
      ∀ d2 ∈ ["mod/a", "mod/a/sub"],
        isOwnedBy (joinPath "" "mod/a/sub/y.go") d2 = true →
          d2.length ≤ "mod/a/sub".length) :=
  ⟨findAffectedModuleDirs_longest_owner ["mod/a/x.go", "mod/a/sub/y.go"]
      ["mod/a", "mod/a/sub"] "" "mod/a/x.go" "mod/a" (by decide) (by decide),
    findAffectedModuleDirs_longest_owner ["mod/a/x.go", "mod/a/sub/y.go"]
      ["mod/a", "mod/a/sub"] "" "mod/a/sub/y.go" "mod/a/sub" (by decide)
      (by decide)⟩

/-- C3: engine construction fails fast with a construction error for every
concurrency ceiling below 1, and for every ceiling at least 1 it succeeds
and returns the engine. -/
theorem newRunner_construction_iff_ceiling (ctx : Unit) (n : Int) :
    (n < 1 → NewRunner ctx n = Except.error "concurrency must be at least 1") ∧
    (1 ≤ n → NewRunner ctx n = Except.ok { concurrency := n }) := by
  constructor
  · intro h
    unfold NewRunner
    rw [if_pos h]
  · intro h
    unfold NewRunner
    rw [if_neg (by omega)]

/-- Witness for C3 at ceilings 0 and 3. -/
theorem newRunner_construction_iff_ceiling_witness :
    NewRunner () 0 = Except.error "concurrency must be at least 1" ∧
    NewRunner () 3 = Except.ok { concurrency := 3 } :=
  ⟨(newRunner_construction_iff_ceiling () 0).1 (by decide),
    (newRunner_construction_iff_ceiling () 3).2 (by decide)⟩

/-- C4 (counterexample): the claim says every command fails with a fatal
setup error on a workspace with no modules; but on such a workspace the
test/fmt command action returns no error and schedules zero tasks. -/
theorem commandAction_empty_workspace_no_error :
    commandAction (Except.ok []) (Except.ok []) false "" "/ws" "go test ./..." []
      = (none, []) := rfl

/-- C4 (amended): a workspace with no modules is a fatal setup error for
the affected and graph commands, reported before any other work; the
test and fmt commands do not fail — they build an empty task batch and
return no error. -/
theorem empty_workspace_fatal_for_affected_and_graph_only
    (changedFiles : List String) (changedFilesRes : Except String (List String))
    (absPath : String) (includeDeps : Bool) (graphRes : Except String DiGraph)
    (affectedFlag : Bool) (target cmd : String) (results : List TaskResult) :
    runAffectedPaths (Except.ok []) changedFilesRes absPath includeDeps graphRes
      = Except.error "no modules found in workspace" ∧
    runGraphSetup (Except.ok []) graphRes
      = Except.error "no modules found in workspace" ∧
    (commandAction (Except.ok []) (Except.ok changedFiles) affectedFlag target
        absPath cmd results).1 = none ∧
    createTasks [] cmd = [] := by
  refine ⟨rfl, rfl, ?_, rfl⟩
  cases affectedFlag <;> rfl

/-- Witness for C4 (amended) at concrete inputs. -/
theorem empty_workspace_fatal_for_affected_and_graph_only_witness :
    runAffectedPaths (Except.ok []) (Except.ok []) "/ws" false
        (Except.ok ⟨[], []⟩)
      = Except.error "no modules found in workspace" ∧
    runGraphSetup (Except.ok []) (Except.ok ⟨[], []⟩)
      = Except.error "no modules found in workspace" ∧
    (commandAction (Except.ok []) (Except.ok []) true "" "/ws" "go fmt ./..."
        []).1 = none ∧
    createTasks [] "go fmt ./..." = [] :=
  empty_workspace_fatal_for_affected_and_graph_only [] (Except.ok []) "/ws"
    false (Except.ok ⟨[], []⟩) true "" "go fmt ./..." []

/-- C5: for every module dependency graph and every module vertex in it,
the dependency lookup returns exactly the vertices reachable from the
module along the import-derived edges, excluding the module itself; a
dependent that is not reachable is never included. -/
theorem getDependencyPaths_reachability (g : DiGraph) (vertex : String)
    (hv : vertex ∈ g.vertices) (deps : List String)
    (hd : GetDependencyPaths g vertex = Except.ok deps) :
    ∀ w, w ∈ deps ↔ (Reachable g vertex w ∧ w ≠ vertex) := by
  unfold GetDependencyPaths at hd
  rw [if_pos hv] at hd
  obtain rfl : (dfsLoop g [vertex] []).filter (fun w => !(w == vertex))
      = deps := by injection hd
  intro w
  rw [List.mem_filter]
  constructor
  · rintro ⟨hmem, hne⟩
    refine ⟨dfsLoop_sound g vertex [vertex] [] ?_ ?_ w hmem, by simpa using hne⟩
    · intro x hx
      obtain rfl : x = vertex := List.mem_singleton.mp hx
      exact Reachable.refl _
    · intro x hx
      simp at hx
  · rintro ⟨hreach, hne⟩
    exact ⟨mem_dfsLoop_of_reachable g vertex w hreach, by simpa using hne⟩

/-- Witness for C5 on the concrete graph a → b → c with dependent d → a:
the dependencies of a are exactly b and c, and the dependent d is
excluded. -/
theorem getDependencyPaths_reachability_witness :
    ("c" ∈ ["b", "c"] ↔
      (Reachable ⟨["a", "b", "c", "d"], [("a", "b"), ("b", "c"), ("d", "a")]⟩
          "a" "c" ∧ "c" ≠ "a")) ∧
    ("d" ∈ ["b", "c"] ↔
      (Reachable ⟨["a", "b", "c", "d"], [("a", "b"), ("b", "c"), ("d", "a")]⟩
          "a" "d" ∧ "d" ≠ "a")) :=
  ⟨getDependencyPaths_reachability
      ⟨["a", "b", "c", "d"], [("a", "b"), ("b", "c"), ("d", "a")]⟩ "a"
      (by decide) ["b", "c"] (by simp [GetDependencyPaths, dfsLoop, adj]) "c",
    getDependencyPaths_reachability
      ⟨["a", "b", "c", "d"], [("a", "b"), ("b", "c"), ("d", "a")]⟩ "a"
      (by decide) ["b", "c"] (by simp [GetDependencyPaths, dfsLoop, adj]) "d"⟩

/-- C6: RunTasks returns, for every ordered sequence of task descriptors,
one live result handle per task, in the same order and of the same length,
each handle's identifier copied from its descriptor. -/
theorem runTasks_length_order_ids (r : Runner) (tasks : List Task) :
    (RunTasks r tasks).length = tasks.length ∧
    (RunTasks r tasks).map TaskFuture.Id = tasks.map Task.Id := by
  constructor
  · simp [RunTasks]
  · simp [RunTasks, List.map_map]

/-- Witness for C6 on a concrete two-task batch. -/
theorem runTasks_length_order_ids_witness :
    (RunTasks { concurrency := 3 }
        [{ Id := "a", Cmd := "go test ./...", Root := "/ws/a" },
         { Id := "b", Cmd := "go test ./...", Root := "/ws/b" }]).length = 2 ∧
    (RunTasks { concurrency := 3 }
        [{ Id := "a", Cmd := "go test ./...", Root := "/ws/a" },
         { Id := "b", Cmd := "go test ./...", Root := "/ws/b" }]).map
        TaskFuture.Id
      = [{ Id := "a", Cmd := "go test ./...", Root := "/ws/a" },
         { Id := "b", Cmd := "go test ./...", Root := "/ws/b" }].map Task.Id :=
  runTasks_length_order_ids { concurrency := 3 } _

/-- C7: under ceiling N at least 1, in every scheduler state reachable
from the initial state of a batch of M submitted tasks, the number of
simultaneously running tasks never exceeds min N M. -/
theorem running_tasks_bounded (N : Nat) (hN : 1 ≤ N) (tasks : List Task)
    (s : EngineState)
    (h : Relation.ReflTransGen (EngineStep N) (initState tasks) s) :
    s.running.length ≤ min N tasks.length := by
  have hinv := engineReachable_inv N tasks.length (initState tasks) s h
    (by simp [initState])
  refine Nat.le_min.mpr ⟨hinv.1, ?_⟩
  have := hinv.2
  omega

/-- Witness for C7: ceiling 1, a one-task batch, in the state reached by
admitting the task. -/
theorem running_tasks_bounded_witness :
    1 ≤ 1 ∧
    (EngineState.mk [] [Task.mk "m" "go test ./..." "/ws/m"] []).running.length
      ≤ min 1 [Task.mk "m" "go test ./..." "/ws/m"].length :=
  ⟨le_refl 1,
    running_tasks_bounded 1 (le_refl 1) [Task.mk "m" "go test ./..." "/ws/m"] _
      (Relation.ReflTransGen.single
        (EngineStep.start _ (Task.mk "m" "go test ./..." "/ws/m") [] [] rfl
          (by decide)))⟩

/-- C8: a changed file is counted for a module directory only at a
path-separator boundary (ownership is equality or extension after the
separator, so mod/a never claims a file under mod/ab); every directory in
the result owns some changed file and is one of the module directories —
a file under no module directory contributes nothing; and the result
holds each directory at most once. -/
theorem findAffectedModuleDirs_boundary_nodup
    (changedFiles moduleDirs : List String) (workspaceRoot : String) :
    (FindAffectedModuleDirs changedFiles moduleDirs workspaceRoot).Nodup ∧
    (∀ d ∈ FindAffectedModuleDirs changedFiles moduleDirs workspaceRoot,
      d ∈ moduleDirs ∧ ∃ f ∈ changedFiles,
        firstOwner (sortByLengthDesc moduleDirs) (joinPath workspaceRoot f)
          = some d) ∧
    (∀ f d : String, isOwnedBy f d = true ↔
      (f = d ∨ ∃ rest : String, f = d ++ "/" ++ rest)) ∧
    isOwnedBy "mod/ab/x.go" "mod/a" = false := by
  refine ⟨?_, ?_, isOwnedBy_iff, by decide⟩
  · exact nodup_foldl_addOwner _ _ changedFiles [] List.nodup_nil
  · intro d hd
    unfold FindAffectedModuleDirs at hd
    rw [mem_foldl_addOwner] at hd
    rcases hd with hd | ⟨f, hf, hfo⟩
    · simp at hd
    · exact ⟨(sortByLengthDesc_perm moduleDirs).mem_iff.mp
        (List.mem_of_find?_eq_some hfo), f, hf, hfo⟩

/-- Witness for C8 on a concrete input with a sibling-named directory, an
unowned file, and a duplicated changed file. -/
theorem findAffectedModuleDirs_boundary_nodup_witness :
    (FindAffectedModuleDirs ["mod/a/x.go", "mod/ab/y.go", "mod/a/x.go"]
        ["mod/a"] "").Nodup ∧
    (∀ d ∈ FindAffectedModuleDirs ["mod/a/x.go", "mod/ab/y.go", "mod/a/x.go"]
        ["mod/a"] "",
      d ∈ ["mod/a"] ∧ ∃ f ∈ ["mod/a/x.go", "mod/ab/y.go", "mod/a/x.go"],
        firstOwner (sortByLengthDesc ["mod/a"]) (joinPath "" f) = some d) ∧
    (∀ f d : String, isOwnedBy f d = true ↔
      (f = d ∨ ∃ rest : String, f = d ++ "/" ++ rest)) ∧
    isOwnedBy "mod/ab/x.go" "mod/a" = false :=
  findAffectedModuleDirs_boundary_nodup
    ["mod/a/x.go", "mod/ab/y.go", "mod/a/x.go"] ["mod/a"] ""

/-- C9: the github-matrix output is a JSON object whose module key holds
exactly the affected paths as a JSON array — the empty and nil cases both
render as the empty array and never as null. -/
theorem outputAffectedGithubMatrix_array (modules : Option (List String)) :
    outputAffectedGithubMatrix modules
      = "\x7b\"module\":" ++ marshalStringSlice (some (modules.getD []))
          ++ "\x7d" ∧
    marshalStringSlice (some (modules.getD []))
      = "[" ++ String.intercalate ","
          ((modules.getD []).map (fun m => "\"" ++ m ++ "\"")) ++ "]" ∧
    outputAffectedGithubMatrix none = "\x7b\"module\":[]\x7d" := by
  refine ⟨?_, rfl, rfl⟩
  unfold outputAffectedGithubMatrix
  cases modules with
  | none => rfl
  | some l =>
    cases l with
    | nil => rfl
    | cons x xs => rfl

/-- Witness for C9 at the nil slice, the empty list and a one-path list. -/
theorem outputAffectedGithubMatrix_array_witness :
    outputAffectedGithubMatrix (some ["example.com/api"])
      = "\x7b\"module\":"
          ++ marshalStringSlice (some ((some ["example.com/api"]).getD []))
          ++ "\x7d" ∧
    outputAffectedGithubMatrix none = "\x7b\"module\":[]\x7d" :=
  ⟨(outputAffectedGithubMatrix_array (some ["example.com/api"])).1,
    (outputAffectedGithubMatrix_array (some [])).2.2⟩

/-- C10: GetChangedFiles trims the git output and splits on newlines,
returning the empty list — never a one-element list holding the empty
string — exactly when the trimmed output is empty. -/
theorem getChangedFiles_empty_iff (output : String) :
    (GetChangedFiles output = [] ↔ trimSpace output = "") ∧
    GetChangedFiles output ≠ [""] := by
  unfold GetChangedFiles
  by_cases h : trimSpace output = ""
  · simp [h]
  · rw [if_neg h]
    constructor
    · constructor
      · intro hmap
        exact absurd (List.map_eq_nil_iff.mp hmap) (splitOnNewlines_ne_nil _)
      · intro ht
        exact absurd ht h
    · intro hmap
      have hsplit : splitOnNewlines (trimSpace output).data = [[]] := by
        cases hs : splitOnNewlines (trimSpace output).data with
        | nil => exact absurd hs (splitOnNewlines_ne_nil _)
        | cons a as =>
          rw [hs] at hmap
          simp only [List.map_cons, List.cons.injEq] at hmap
          obtain ⟨ha, has⟩ := hmap
          have ha2 : a = [] := by
            have : (String.mk a).data = ("" : String).data := by rw [ha]
            simpa using this
          have has2 : as = [] := List.map_eq_nil_iff.mp has
          rw [ha2, has2]
      have hdata : (trimSpace output).data = [] :=
        (splitOnNewlines_eq_singleton_nil _).mp hsplit
      exact h (String.ext hdata)

/-- Witness for C10 on whitespace-only output and on a two-file diff. -/
theorem getChangedFiles_empty_iff_witness :
    ((GetChangedFiles "  \n" = [] ↔ trimSpace "  \n" = "") ∧
      GetChangedFiles "  \n" ≠ [""]) ∧
    ((GetChangedFiles "a.go\nb/c.go\n" = [] ↔
        trimSpace "a.go\nb/c.go\n" = "") ∧
      GetChangedFiles "a.go\nb/c.go\n" ≠ [""]) :=
  ⟨getChangedFiles_empty_iff "  \n", getChangedFiles_empty_iff "a.go\nb/c.go\n"⟩

end Knit
